import Mathlib

/-!
Verification development for the todo-system repository (Rust).

The scanners and the renderer from src/scan.rs, src/render.rs and
src/entries.rs are shallowly embedded below.  Strings are modelled as
lists of characters (`Str`); Rust's byte-based `len` is modelled by
`utf8Len` where it matters, and `to_lowercase` is modelled by ASCII
lowering (all inputs of interest are ASCII).  Rust functions that can
panic (an `unwrap` on `None`/`Err`) are embedded with an `Option`
result where `none` models the panic.  Filesystem effects are
abstracted into an `Env` record of oracle functions so that the
gitignore importer and the directory walker become pure functions of
the environment.
-/

/-- Strings, modelled as lists of Unicode scalar values. -/
abbrev Str := List Char

/-- Coerce a Lean string literal to the model type. -/
def str (s : String) : Str := s.data

/-- ASCII lowercasing of one character; models Rust char lowercasing on
the ASCII range (all inputs relevant to the claims are ASCII). -/
def toLowerChar (c : Char) : Char :=
  if 'A' ≤ c ∧ c ≤ 'Z' then Char.ofNat (c.toNat + 32) else c

/-- Models Rust str::to_lowercase (ASCII range). -/
def lowerStr (s : Str) : Str := s.map toLowerChar

/-- Whitespace recognizer; the ASCII part of Rust char::is_whitespace. -/
def isWS (c : Char) : Bool :=
  c = ' ' || c = '\t' || c = '\n' || c = '\r' || c = Char.ofNat 11 || c = Char.ofNat 12

/-- Does `s` start with `pat`?  Models Rust str::starts_with. -/
def strStarts : Str → Str → Bool
  | [], _ => true
  | _ :: _, [] => false
  | p :: ps, c :: cs => p = c && strStarts ps cs

/-- Does `hay` contain `needle` as a contiguous substring?
Models Rust str::contains. -/
def strContains : Str → Str → Bool
  | [], needle => strStarts needle []
  | c :: t, needle => strStarts needle (c :: t) || strContains t needle

/-- Models Rust str::split_once: split at the first occurrence of `pat`
into the parts before and after it; `none` when `pat` does not occur. -/
def splitOnce (pat : Str) : Str → Option (Str × Str)
  | [] => if pat = [] then some ([], []) else none
  | c :: t =>
    if strStarts pat (c :: t) then some ([], (c :: t).drop pat.length)
    else (splitOnce pat t).map (fun pr => (c :: pr.1, pr.2))

/-- Worker for `splitOnStr`: fuelled scan so that all recursion is
structural (the fuel is always at least the length of the text). -/
def splitOnGo (p : Char) (ps : Str) : Nat → Str → Str → List Str
  | 0, s, acc => [acc.reverse ++ s]
  | f + 1, s, acc =>
    match s with
    | [] => [acc.reverse]
    | c :: t =>
      if strStarts (p :: ps) (c :: t) then
        acc.reverse :: splitOnGo p ps f (t.drop ps.length) []
      else
        splitOnGo p ps f t (c :: acc)

/-- Models Rust str::split with a non-empty string pattern: the pieces
between leftmost non-overlapping occurrences of `pat`.  (The source
never splits on an empty pattern.) -/
def splitOnStr (pat s : Str) : List Str :=
  match pat with
  | [] => [s]
  | p :: ps => splitOnGo p ps s.length s []

/-- Models Rust str::split_whitespace (worker, accumulating the current
word reversed). -/
def splitWSGo : Str → Str → List Str
  | [], cur => if cur = [] then [] else [cur.reverse]
  | c :: t, cur =>
    if isWS c then
      if cur = [] then splitWSGo t [] else cur.reverse :: splitWSGo t []
    else
      splitWSGo t (c :: cur)

/-- Models Rust str::split_whitespace. -/
def splitWhitespace (s : Str) : List Str := splitWSGo s []

/-- Drop one trailing carriage return, as Rust str::lines does on lines
terminated by a newline. -/
def stripCR (s : Str) : Str :=
  if s.getLast? = some '\r' then s.dropLast else s

/-- Worker for `rustLines`. -/
def rustLinesGo : Str → Str → List Str
  | [], cur => if cur = [] then [] else [cur.reverse]
  | c :: t, cur =>
    if c = '\n' then stripCR cur.reverse :: rustLinesGo t []
    else rustLinesGo t (c :: cur)

/-- Models Rust str::lines: split at newline terminators, stripping a
carriage return before each newline; a final unterminated line is kept
as is, and a trailing newline does not yield an empty final line. -/
def rustLines (s : Str) : List Str := rustLinesGo s []

/-- Models Rust str::trim_start. -/
def trimStart (s : Str) : Str := s.dropWhile isWS

/-- Models Rust str::trim_end. -/
def trimEnd (s : Str) : Str := (s.reverse.dropWhile isWS).reverse

/-- Models Rust str::trim. -/
def strTrim (s : Str) : Str := trimEnd (trimStart s)

/-- Fuelled worker for `trimStartRun` (the fuel is always sufficient,
since every step removes at least one character). -/
def trimStartRunF (pat : Str) : Nat → Str → Str
  | 0, s => s
  | f + 1, s =>
    if pat ≠ [] && strStarts pat s then trimStartRunF pat f (s.drop pat.length)
    else s

/-- Repeatedly remove `pat` from the front while it is there; this is
Rust str::trim_start_matches. -/
def trimStartRun (pat s : Str) : Str := trimStartRunF pat s.length s

/-- Repeatedly remove `pat` from the end while it is there; this is
Rust str::trim_end_matches (a one-character `pat` models the char
pattern form). -/
def trimEndRun (pat s : Str) : Str := (trimStartRun pat.reverse s.reverse).reverse

/-- Remove all leading and trailing occurrences of the character `c`;
models Rust str::trim_matches with a char pattern. -/
def trimMatchesChar (c : Char) (s : Str) : Str :=
  ((s.dropWhile (fun d => d = c)).reverse.dropWhile (fun d => d = c)).reverse

/-- Rust byte length of a string (sum of UTF-8 sizes). -/
def utf8Len (s : Str) : Nat := s.foldl (fun n c => n + c.utf8Size) 0

/-- Parse a one-character string as a decimal digit; models what Rust
`"<single char>".parse::<isize>()` accepts (a lone sign is an error). -/
def parseDigit (c : Char) : Option Int :=
  if '0' ≤ c ∧ c ≤ '9' then some ((c.toNat : Int) - (('0').toNat : Int)) else none

/-- The double-quote character. -/
def dquote : Char := Char.ofNat 34

/-- The single-quote character. -/
def squote : Char := Char.ofNat 39

/-! ## Entry model (src/entries.rs) -/

/-- Where an entry was found: file path and 1-based line number. -/
structure Location where
  file : Str
  line : Nat
deriving DecidableEq

/-- Classification of an entry. -/
inductive EntryData where
  | Priority (p : Int)
  | Category (name : Str)
  | Generic
deriving DecidableEq

/-- One discovered todo marker. -/
structure Entry where
  text : Str
  location : Location
  data : EntryData
deriving DecidableEq

/-! ## Marker parser and file scanner (src/scan.rs) -/

/-- PRIORITY_CHARS from src/scan.rs. -/
def PRIORITY_CHARS : List Char := ['0', '1', '2', '3', '4', '5', '6', '7', '8', '9']

/-- parse_priority from src/scan.rs.  The outer `Option` models the two
possible panics (`split("todo").nth(1).unwrap()` when "todo" is absent
from the lowercased word, and `parse::<isize>().unwrap()` when the
single-byte substring is not a digit); the inner `Option` is the
function's own return value (`none` models invalid syntax like todo11). -/
def parse_priority (word : Str) : Option (Option Int) :=
  match (splitOnStr (str "todo") (lowerStr word)).get? 1 with
  | none => none
  | some sub =>
    if utf8Len sub = 1 then
      match sub with
      | [c] => (parseDigit c).map some
      | _ => none
    else if sub.all (fun ch => ch = '0') then
      some (some (1 - (sub.length : Int)))
    else
      some none

/-- clean_line from src/scan.rs: the remainder of `line` after the first
occurrence of `delim`, trimmed, with trailing comment closers removed in
source order, then re-trimmed.  `none` models the `split_once..unwrap()`
panic when `delim` does not occur in `line`. -/
def clean_line (line delim : Str) : Option Str :=
  (splitOnce delim line).map (fun pr =>
    strTrim (trimEndRun (str "/>")
      (trimEndRun (str "--\x7d\x7d")
        (trimEndRun (str "-->")
          (trimEndRun (str "*/") (strTrim pr.2))))))

/-- The bare-marker test from src/scan.rs lines 171-175, applied to the
original token: strip trailing colons, lowercase, strip trailing double
quotes then trailing single quotes, compare with "todo". -/
def bareTest (w : Str) : Bool :=
  trimEndRun [squote] (trimEndRun [dquote] (lowerStr (trimEndRun [':'] w))) = str "todo"

/-- Outcome of processing one whitespace token of a line in scan_string:
the loop either panics, continues with the next token, or stops the
line scan having pushed `es` (possibly no) entries. -/
inductive StepRes where
  | crash
  | cont
  | stop (es : List Entry)
deriving DecidableEq

/-- One iteration of the token loop of scan_string (src/scan.rs lines
151-217), for token `w` of line number `n` (0-based) of file `path`. -/
def scanWordStep (path : Str) (n : Nat) (line w : Str) : StepRes :=
  if strStarts (str "todo") (lowerStr w) = false then .cont
  else
    match clean_line line w with
    | none => .crash
    | some text =>
      if strStarts (str "todo!(") w then
        .stop [⟨strTrim line, ⟨path, n + 1⟩, .Generic⟩]
      else
        let w2 := trimEndRun [':'] w
        if bareTest w then
          .stop [⟨text, ⟨path, n + 1⟩, .Generic⟩]
        else if w2.any (fun c => c = '@') then
          match (splitOnStr ['@'] w2).get? 1 with
          | none => .crash
          | some cat => .stop [⟨text, ⟨path, n + 1⟩, .Category cat⟩]
        else if w2.any (fun c => PRIORITY_CHARS.contains c) then
          match parse_priority w2 with
          | none => .crash
          | some none => .stop []
          | some (some p) => .stop [⟨text, ⟨path, n + 1⟩, .Priority p⟩]
        else .cont

/-- The token loop of scan_string over the word list of one line. -/
def scanWords (path : Str) (n : Nat) (line : Str) : List Str → Option (List Entry)
  | [] => some []
  | w :: ws =>
    match scanWordStep path n line w with
    | .crash => none
    | .cont => scanWords path n line ws
    | .stop es => some es

/-- Processing of one line by scan_string: the fast lowercase substring
pre-filter, then the token loop. -/
def scanLine (path : Str) (n : Nat) (line : Str) : Option (List Entry) :=
  if strContains (lowerStr line) (str "todo") then
    scanWords path n line (splitWhitespace line)
  else some []

/-- The line loop of scan_string, starting at 0-based line index `n`. -/
def scanLinesGo (path : Str) : Nat → List Str → Option (List Entry)
  | _, [] => some []
  | n, l :: ls =>
    match scanLine path n l with
    | none => none
    | some es =>
      match scanLinesGo path (n + 1) ls with
      | none => none
      | some rest => some (es ++ rest)

/-- scan_string from src/scan.rs: the list of entries appended for the
content `s` of file `path`; `none` models a panic. -/
def scan_string (s path : Str) : Option (List Entry) :=
  scanLinesGo path 0 (rustLines s)

/-! ## Structured-file scanners (src/scan.rs, scan_todo_file and
scan_readme_file) -/

/-- The word search shared by both structured scanners (src/scan.rs
lines 293-294 and 364-365): the first whitespace token whose lowercased,
colon-stripped form starts with "todo" and which contains a digit. -/
def findTodoDigitWord : List Str → Option Str
  | [] => none
  | w :: ws =>
    if strStarts (str "todo") (trimEndRun [':'] (lowerStr w)) &&
        w.any (fun c => PRIORITY_CHARS.contains c) then
      some w
    else findTodoDigitWord ws

/-- The fallback text of a list-item line in the structured scanners:
left-trim, then strip leading "- [ ] " and "- " runs (src/scan.rs lines
310 and 383). -/
def stripListMark (line : Str) : Str :=
  trimStartRun (str "- ") (trimStartRun (str "- [ ] ") (trimStart line))

/-- Processing of one qualifying list-item line by scan_todo_file: a
found todo-digit token is parsed as a priority (emitting one Priority
entry on success and nothing on failure, either way ending the line);
otherwise a Category (under a heading) or Generic entry is emitted. -/
def scanTodoLine (path : Str) (n : Nat) (cat : Option Str) (line : Str) :
    Option (List Entry) :=
  match findTodoDigitWord (splitWhitespace line) with
  | some w =>
    match parse_priority (trimEndRun [':'] w) with
    | none => none
    | some none => some []
    | some (some p) =>
      match clean_line line w with
      | none => none
      | some t => some [⟨t, ⟨path, n + 1⟩, .Priority p⟩]
  | none =>
    some [⟨stripListMark line, ⟨path, n + 1⟩,
      match cat with
      | some c => .Category c
      | none => .Generic⟩]

/-- The line loop of scan_todo_file; `none` models a panic (in
particular the `split_once("# ").unwrap()` on heading lines). -/
def scanTodoGo (path : Str) : Nat → Option Str → List Str → Option (List Entry)
  | _, _, [] => some []
  | n, cat, line :: rest =>
    if strStarts ['#'] line then
      match splitOnce (str "# ") line with
      | none => none
      | some pr => scanTodoGo path (n + 1) (some pr.2) rest
    else if strStarts ['-'] (trimStart line) = false then
      scanTodoGo path (n + 1) cat rest
    else
      match scanTodoLine path n cat line with
      | none => none
      | some es =>
        match scanTodoGo path (n + 1) cat rest with
        | none => none
        | some more => some (es ++ more)

/-- scan_todo_file from src/scan.rs, as a function of the file content
(the read itself is a collaborator concern). -/
def scan_todo_file (content path : Str) : Option (List Entry) :=
  scanTodoGo path 0 none (rustLines content)

/-- Processing of one qualifying list-item line by scan_readme_file:
like `scanTodoLine`, but the fallback is always a Generic entry. -/
def scanReadmeLine (path : Str) (n : Nat) (line : Str) : Option (List Entry) :=
  match findTodoDigitWord (splitWhitespace line) with
  | some w =>
    match parse_priority (trimEndRun [':'] w) with
    | none => none
    | some none => some []
    | some (some p) =>
      match clean_line line w with
      | none => none
      | some t => some [⟨t, ⟨path, n + 1⟩, .Priority p⟩]
  | none => some [⟨stripListMark line, ⟨path, n + 1⟩, .Generic⟩]

/-- The line loop of scan_readme_file; the Bool is the in-todo-section
flag; `none` models a panic. -/
def scanReadmeGo (path : Str) : Nat → Bool → List Str → Option (List Entry)
  | _, _, [] => some []
  | n, inT, line :: rest =>
    if strStarts ['#'] line then
      match splitOnce (str "# ") line with
      | none => none
      | some pr =>
        scanReadmeGo path (n + 1)
          (strTrim (trimEndRun [':'] (lowerStr pr.2)) = str "todo" ||
            strTrim (trimEndRun [':'] (lowerStr pr.2)) = str "todos") rest
    else if inT = false then scanReadmeGo path (n + 1) inT rest
    else if strStarts ['-'] (trimStart line) = false then
      scanReadmeGo path (n + 1) inT rest
    else
      match scanReadmeLine path n line with
      | none => none
      | some es =>
        match scanReadmeGo path (n + 1) inT rest with
        | none => none
        | some more => some (es ++ more)

/-- scan_readme_file from src/scan.rs, as a function of file content. -/
def scan_readme_file (content path : Str) : Option (List Entry) :=
  scanReadmeGo path 0 false (rustLines content)

/-! ## Report renderer (src/render.rs) -/

/-- Decimal digits of a natural number (fuelled worker). -/
def natDigitsGo : Nat → Nat → Str
  | 0, _ => []
  | _, 0 => []
  | f + 1, n => natDigitsGo f (n / 10) ++ [Char.ofNat (48 + n % 10)]

/-- Decimal rendering of a natural number, as Rust formatting does. -/
def natDigits (n : Nat) : Str := if n = 0 then str "0" else natDigitsGo n n

/-- The subsection header for a priority value (src/render.rs lines
77-90): "todo0" followed by `abs` extra zeros for negative values,
"todo0" for zero, "todoN" for positive N. -/
def priorityHeader (p : Int) : Str :=
  if p < 0 then str "todo0" ++ List.replicate p.natAbs '0'
  else if p = 0 then str "todo0"
  else str "todo" ++ natDigits p.natAbs

/-- The priority key of an entry, when it has one. -/
def entryPriority (e : Entry) : Option Int :=
  match e.data with
  | .Priority p => some p
  | _ => none

/-- The category key of an entry, when it has one. -/
def entryCategory (e : Entry) : Option Str :=
  match e.data with
  | .Category c => some c
  | _ => none

/-- Strict lexicographic order on strings by scalar value; this is the
order Rust's `partial_cmp` induces on strings (UTF-8 byte order equals
scalar-value order). -/
def strLt : Str → Str → Bool
  | [], [] => false
  | [], _ :: _ => true
  | _ :: _, [] => false
  | a :: as', b :: bs => if a < b then true else if a = b then strLt as' bs else false

/-- Non-strict lexicographic order on strings. -/
def strLe (a b : Str) : Bool := strLt a b || a = b

/-- Non-strict order on priorities. -/
def intLe (a b : Int) : Bool := a ≤ b

/-- Insert into a sorted list (stable: an element is placed before the
first existing element it is `le` to). -/
def insertSorted (le : α → α → Bool) (x : α) : List α → List α
  | [] => [x]
  | y :: ys => if le x y then x :: y :: ys else y :: insertSorted le x ys

/-- Insertion sort with a boolean comparator; models Rust's
`sort_by(partial_cmp)` on the key lists (which hold no equal keys) and
on the generic entries (stable for equal texts). -/
def sortBy (le : α → α → Bool) : List α → List α
  | [] => []
  | x :: xs => insertSorted le x (sortBy le xs)

/-- The structured report produced by render_entries: priority sections
in render order (key, header, bucket), category sections (name, bucket),
and the final Other section. -/
structure Report where
  prioritySections : List (Int × Str × List Entry)
  categorySections : List (Str × List Entry)
  otherSection : List Entry
deriving DecidableEq

/-- render_entries from src/render.rs, modelled as the structured report
it writes: entries are bucketed by classification (bucket order is
discovery order, as with the source's HashMap pushes), priority keys and
category keys are sorted ascending, and the generic entries are sorted
by text. -/
def render_entries (entries : List Entry) : Report :=
  { prioritySections :=
      (sortBy intLe (entries.filterMap entryPriority).dedup).map
        (fun p => (p, priorityHeader p,
          entries.filter (fun e => e.data = EntryData.Priority p))),
    categorySections :=
      (sortBy strLe (entries.filterMap entryCategory).dedup).map
        (fun c => (c, entries.filter (fun e => e.data = EntryData.Category c))),
    otherSection :=
      sortBy (fun a b => strLe a.text b.text)
        (entries.filter (fun e => e.data = EntryData.Generic)) }

/-! ## Gitignore importer and directory walker (src/scan.rs) -/

/-- The filesystem oracle.  `canonicalize` returns `none` for an `Err`;
`glob` returns `none` for a pattern error (the source unwraps it) and
each inner `none` models a per-entry glob error (also unwrapped);
`gitignore d` is the content of d/.gitignore when that file exists;
`readDir` lists child names in filesystem-enumeration order, `none`
modelling an io::Error; `readFile` is `none` for unreadable content. -/
structure Env where
  canonicalize : Str → Option Str
  glob : Str → Option (List (Option Str))
  gitignore : Str → Option Str
  readDir : Str → Option (List Str)
  isDir : Str → Bool
  readFile : Str → Option Str

/-- Path join, modelling PathBuf::push of a relative component. -/
def joinPath (base rel : Str) : Str := base ++ '/' :: rel

/-- The inner loop of the gitignore importer over one glob expansion
(src/scan.rs lines 136-140): a per-entry glob error panics (`none`);
a path that fails to canonicalize is silently skipped; the rest are
appended to the excludes. -/
def pushGlobResults (env : Env) : List (Option Str) → List Str → Option (List Str)
  | [], acc => some acc
  | none :: _, _ => none
  | some p :: rest, acc =>
    match env.canonicalize p with
    | some e => pushGlobResults env rest (acc ++ [e])
    | none => pushGlobResults env rest acc

/-- The line loop of add_excludes_from_gitignore (src/scan.rs lines
111-142): blank, negation and comment lines are skipped; a line whose
trimmed content is exactly "*" pushes the canonicalized base directory
(when canonicalization succeeds) and stops; any other line is turned
into a glob pattern under the base directory and expanded, a malformed
pattern panicking (`glob(..).unwrap()`). -/
def processIgnoreLines (env : Env) (base : Str) : List Str → List Str → Option (List Str)
  | [], acc => some acc
  | line :: rest, acc =>
    if strTrim line = [] then processIgnoreLines env base rest acc
    else if strTrim line = ['*'] then
      match env.canonicalize base with
      | some rp => some (acc ++ [rp])
      | none => some acc
    else if strStarts ['!'] (strTrim line) then processIgnoreLines env base rest acc
    else if strStarts ['#'] (strTrim line) then processIgnoreLines env base rest acc
    else
      match env.glob (joinPath base (trimMatchesChar '/' (trimEndRun (str "*/") line))) with
      | none => none
      | some results =>
        match pushGlobResults env results acc with
        | none => none
        | some acc2 => processIgnoreLines env base rest acc2

/-- add_excludes_from_gitignore from src/scan.rs: read base/.gitignore
when it exists and fold its lines into the exclude list. -/
def add_excludes_from_gitignore (env : Env) (base : Str) (excludes : List Str) :
    Option (List Str) :=
  match env.gitignore base with
  | none => some excludes
  | some content => processIgnoreLines env base (rustLines content) excludes

/-- The post-import re-check of scan_dir (src/scan.rs lines 240-244):
walk the excludes, canonicalizing the directory at each step (the
unwrap panics when canonicalization fails and the list is non-empty),
returning whether the directory itself is excluded. -/
def recheck (env : Env) (dir : Str) : List Str → Option Bool
  | [] => some false
  | e :: rest =>
    match env.canonicalize dir with
    | none => none
    | some cd => if cd = e then some true else recheck env dir rest

/-- The per-child exclude check of scan_dir (src/scan.rs lines
257-261), same panic behaviour as `recheck`. -/
def excludedCheck (env : Env) (path : Str) : List Str → Option Bool
  | [] => some false
  | e :: rest =>
    match env.canonicalize path with
    | none => none
    | some cp => if cp = e then some true else excludedCheck env path rest

/-- scan_file from src/scan.rs: unreadable content yields zero entries
and succeeds; readable content is fed to scan_string. -/
def scan_file (env : Env) (path : Str) (entries : List Entry) : Option (List Entry) :=
  match env.readFile path with
  | none => some entries
  | some content =>
    match scan_string content path with
    | none => none
    | some es => some (entries ++ es)

/-- Walker state: accumulated entries, excludes, and the two stat
counters of `Stats` (the verbosity-gated path lists are presentation
only and are not modelled). -/
structure ScanState where
  entries : List Entry
  excludes : List Str
  visitedFolders : Nat
  visitedFiles : Nat
deriving DecidableEq

/-- The child loop of scan_dir (src/scan.rs lines 249-269), with the
recursive call passed in: hidden names are skipped, excluded canonical
paths are skipped, directories recurse and files are scanned. -/
def scanKids (env : Env) (recur : Str → ScanState → Option ScanState) (dir : Str) :
    List Str → ScanState → Option ScanState
  | [], st => some st
  | name :: rest, st =>
    if strStarts ['.'] name then scanKids env recur dir rest st
    else
      match excludedCheck env (joinPath dir name) st.excludes with
      | none => none
      | some true => scanKids env recur dir rest st
      | some false =>
        if env.isDir (joinPath dir name) then
          match recur (joinPath dir name) st with
          | none => none
          | some st2 => scanKids env recur dir rest st2
        else
          match scan_file env (joinPath dir name) st.entries with
          | none => none
          | some es =>
            scanKids env recur dir rest
              { st with entries := es, visitedFiles := st.visitedFiles + 1 }

/-- scan_dir from src/scan.rs, with a recursion-depth fuel (the claims
quantify over a sufficient fuel; `none` covers fuel exhaustion as well
as panics and propagated io::Error).  When the directory holds a
.gitignore, its excludes are imported first and the directory is then
re-checked against the grown exclude list, returning before any child
is visited if it has become excluded. -/
def scan_dir (env : Env) : Nat → Str → ScanState → Option ScanState
  | 0, _, _ => none
  | fuel + 1, dir, st =>
    match env.gitignore dir with
    | some _ =>
      match add_excludes_from_gitignore env dir st.excludes with
      | none => none
      | some excl2 =>
        match recheck env dir excl2 with
        | none => none
        | some true => some { st with excludes := excl2 }
        | some false =>
          match env.readDir dir with
          | none => none
          | some names =>
            scanKids env (fun p s => scan_dir env fuel p s) dir names
              { st with excludes := excl2, visitedFolders := st.visitedFolders + 1 }
    | none =>
      match env.readDir dir with
      | none => none
      | some names =>
        scanKids env (fun p s => scan_dir env fuel p s) dir names
          { st with visitedFolders := st.visitedFolders + 1 }

/-! ## Helper lemmas about trimming and the scan_string pipeline -/

theorem dropWhile_head_not (p : α → Bool) :
    ∀ (l : List α) {c : α} {t : List α}, l.dropWhile p = c :: t → p c = false := by
  intro l
  induction l with
  | nil => intro c t h; simp at h
  | cons a as ih =>
    intro c t h
    rw [List.dropWhile_cons] at h
    by_cases hp : p a = true
    · rw [if_pos hp] at h; exact ih h
    · rw [if_neg hp] at h
      cases h
      simpa using hp

theorem trimEnd_eq_rdropWhile (s : Str) : trimEnd s = s.rdropWhile isWS := rfl

/-- Trimming is idempotent. -/
theorem strTrim_idem (s : Str) : strTrim (strTrim s) = strTrim s := by
  unfold strTrim
  have hts : trimStart (trimEnd (trimStart s)) = trimEnd (trimStart s) := by
    rcases hE : trimEnd (trimStart s) with _ | ⟨c, t⟩
    · simp [trimStart]
    · have hpre : (c :: t) <+: trimStart s := by
        rw [← hE, trimEnd_eq_rdropWhile]
        exact List.rdropWhile_prefix _ _
      obtain ⟨r, hr⟩ := hpre
      have hc : isWS c = false := by
        apply @dropWhile_head_not Char isWS s c (t ++ r)
        simpa [trimStart] using hr.symm
      simp [trimStart, List.dropWhile_cons, hc]
  rw [hts, trimEnd_eq_rdropWhile, trimEnd_eq_rdropWhile, List.rdropWhile_idempotent]

/-- The output of clean_line carries no surrounding whitespace. -/
theorem clean_line_trim {line w t : Str} (h : clean_line line w = some t) :
    strTrim t = t := by
  rcases Option.map_eq_some'.mp h with ⟨pr, hpr, hfn⟩
  rw [← hfn]
  exact strTrim_idem _

/-- Every entry a single token-loop stop pushes carries the line number
of its line, trimmed text, and there is at most one of them. -/
theorem scanWordStep_stop {path : Str} {n : Nat} {line w : Str} {es : List Entry}
    (h : scanWordStep path n line w = .stop es) :
    es.length ≤ 1 ∧ ∀ e ∈ es, e.location.line = n + 1 ∧ strTrim e.text = e.text := by
  unfold scanWordStep at h
  split at h
  · simp at h
  · rename_i hpref
    cases hcl : clean_line line w with
    | none => rw [hcl] at h; simp at h
    | some text =>
      rw [hcl] at h
      simp only at h
      split at h
      · rename_i hmac
        cases h
        refine ⟨by simp, ?_⟩
        intro e he
        simp at he
        subst he
        exact ⟨rfl, strTrim_idem line⟩
      · split at h
        · cases h
          refine ⟨by simp, ?_⟩
          intro e he
          simp at he
          subst he
          exact ⟨rfl, clean_line_trim hcl⟩
        · split at h
          · split at h
            · simp at h
            · rename_i cat _
              cases h
              refine ⟨by simp, ?_⟩
              intro e he
              simp at he
              subst he
              exact ⟨rfl, clean_line_trim hcl⟩
          · split at h
            · split at h
              · simp at h
              · cases h
                exact ⟨by simp, by intro e he; simp at he⟩
              · cases h
                refine ⟨by simp, ?_⟩
                intro e he
                simp at he
                subst he
                exact ⟨rfl, clean_line_trim hcl⟩
            · simp at h
theorem scanWords_cons (path : Str) (n : Nat) (line w : Str) (ws : List Str) :
    scanWords path n line (w :: ws) =
      match scanWordStep path n line w with
      | .crash => none
      | .cont => scanWords path n line ws
      | .stop es => some es := rfl

theorem scanLinesGo_cons (path : Str) (n : Nat) (l : Str) (ls : List Str) :
    scanLinesGo path n (l :: ls) =
      match scanLine path n l with
      | none => none
      | some es =>
        match scanLinesGo path (n + 1) ls with
        | none => none
        | some rest => some (es ++ rest) := rfl

theorem scanWords_some {path : Str} {n : Nat} {line : Str} :
    ∀ {ws : List Str} {es : List Entry}, scanWords path n line ws = some es →
    es.length ≤ 1 ∧ ∀ e ∈ es, e.location.line = n + 1 ∧ strTrim e.text = e.text := by
  intro ws
  induction ws with
  | nil =>
    intro es h
    simp [scanWords] at h
    subst h
    exact ⟨by simp, by intro e he; simp at he⟩
  | cons w ws ih =>
    intro es h
    rw [scanWords_cons] at h
    cases hst : scanWordStep path n line w with
    | crash => rw [hst] at h; simp at h
    | cont => rw [hst] at h; exact ih h
    | stop es2 =>
      rw [hst] at h
      simp only [Option.some.injEq] at h
      subst h
      exact scanWordStep_stop hst

theorem scanLine_some {path : Str} {n : Nat} {line : Str} {es : List Entry}
    (h : scanLine path n line = some es) :
    es.length ≤ 1 ∧ ∀ e ∈ es, e.location.line = n + 1 ∧ strTrim e.text = e.text := by
  unfold scanLine at h
  split at h
  · exact scanWords_some h
  · simp only [Option.some.injEq] at h
    subst h
    exact ⟨by simp, by intro e he; simp at he⟩

theorem scanLinesGo_some {path : Str} :
    ∀ {ls : List Str} {n : Nat} {es : List Entry}, scanLinesGo path n ls = some es →
    ∀ e ∈ es, (n + 1 ≤ e.location.line ∧ e.location.line ≤ n + ls.length) ∧
      strTrim e.text = e.text := by
  intro ls
  induction ls with
  | nil =>
    intro n es h
    simp [scanLinesGo] at h
    subst h
    intro e he
    simp at he
  | cons l ls ih =>
    intro n es h
    rw [scanLinesGo_cons] at h
    cases h1 : scanLine path n l with
    | none => rw [h1] at h; simp at h
    | some es1 =>
      rw [h1] at h
      cases h2 : scanLinesGo path (n + 1) ls with
      | none => rw [h2] at h; simp at h
      | some rest =>
        rw [h2] at h
        simp only [Option.some.injEq] at h
        subst h
        intro e he
        rcases List.mem_append.mp he with he1 | he2
        · rcases scanLine_some h1 with ⟨_, hprops⟩
          rcases hprops e he1 with ⟨hline, htrim⟩
          exact ⟨⟨by omega, by simp only [List.length_cons]; omega⟩, htrim⟩
        · rcases ih h2 e he2 with ⟨⟨hlo, hhi⟩, htrim⟩
          exact ⟨⟨by omega, by simp only [List.length_cons]; omega⟩, htrim⟩

theorem scanLinesGo_append {path : Str} :
    ∀ {ls₁ : List Str} {n : Nat} {a : List Entry} (ls₂ : List Str),
    scanLinesGo path n ls₁ = some a →
    scanLinesGo path n (ls₁ ++ ls₂) =
      match scanLinesGo path (n + ls₁.length) ls₂ with
      | none => none
      | some b => some (a ++ b) := by
  intro ls₁
  induction ls₁ with
  | nil =>
    intro n a ls₂ h
    simp [scanLinesGo] at h
    subst h
    simp only [List.nil_append, List.length_nil, Nat.add_zero]
    cases hb : scanLinesGo path n ls₂ <;> simp
  | cons l ls ih =>
    intro n a ls₂ h
    rw [scanLinesGo_cons] at h
    cases h1 : scanLine path n l with
    | none => rw [h1] at h; simp at h
    | some es1 =>
      rw [h1] at h
      cases h2 : scanLinesGo path (n + 1) ls with
      | none => rw [h2] at h; simp at h
      | some a1 =>
        rw [h2] at h
        simp only [Option.some.injEq] at h
        subst h
        have harith : n + 1 + ls.length = n + (ls.length + 1) := by omega
        show scanLinesGo path n (l :: (ls ++ ls₂)) = _
        rw [scanLinesGo_cons, ih ls₂ h2, harith]
        simp only [h1, List.length_cons]
        cases hb : scanLinesGo path (n + (ls.length + 1)) ls₂ <;> simp

theorem scanWords_append_cont {path : Str} {n : Nat} {line : Str} {ws₂ : List Str} :
    ∀ {ws₁ : List Str}, (∀ u ∈ ws₁, scanWordStep path n line u = .cont) →
    scanWords path n line (ws₁ ++ ws₂) = scanWords path n line ws₂ := by
  intro ws₁
  induction ws₁ with
  | nil => intro _; rfl
  | cons u us ih =>
    intro hall
    have hu : scanWordStep path n line u = .cont := hall u (by simp)
    show scanWords path n line (u :: (us ++ ws₂)) = _
    rw [scanWords_cons, hu]
    exact ih (fun v hv => hall v (by simp [hv]))
/-! ## Order and sorting lemmas -/

theorem insertSorted_perm {α : Type} (le : α → α → Bool) (x : α) :
    ∀ l : List α, (insertSorted le x l).Perm (x :: l) := by
  intro l
  induction l with
  | nil => simp [insertSorted]
  | cons y ys ih =>
    unfold insertSorted
    by_cases h : le x y = true
    · simp [h]
    · simp only [h, if_false]
      exact (ih.cons y).trans (List.Perm.swap x y ys)

theorem sortBy_perm {α : Type} (le : α → α → Bool) :
    ∀ l : List α, (sortBy le l).Perm l := by
  intro l
  induction l with
  | nil => simp [sortBy]
  | cons x xs ih => exact (insertSorted_perm le x (sortBy le xs)).trans (ih.cons x)

theorem insertSorted_pairwise {α : Type} {le : α → α → Bool}
    (htot : ∀ a b, le a b = true ∨ le b a = true)
    (htrans : ∀ a b c, le a b = true → le b c = true → le a c = true)
    (x : α) : ∀ l : List α, l.Pairwise (fun a b => le a b = true) →
    (insertSorted le x l).Pairwise (fun a b => le a b = true) := by
  intro l
  induction l with
  | nil => intro _; simp [insertSorted]
  | cons y ys ih =>
    intro hl
    rcases List.pairwise_cons.mp hl with ⟨hy, hys⟩
    unfold insertSorted
    by_cases h : le x y = true
    · simp only [h, if_true]
      refine List.Pairwise.cons ?_ hl
      intro b hb
      rcases List.mem_cons.mp hb with rfl | hb2
      · exact h
      · exact htrans x y b h (hy b hb2)
    · simp only [h, if_false]
      refine List.Pairwise.cons ?_ (ih hys)
      intro b hb
      have hmem := (insertSorted_perm le x ys).mem_iff.mp hb
      rcases List.mem_cons.mp hmem with rfl | hb2
      · rcases htot b y with h1 | h2
        · exact absurd h1 h
        · exact h2
      · exact hy b hb2

theorem sortBy_pairwise {α : Type} {le : α → α → Bool}
    (htot : ∀ a b, le a b = true ∨ le b a = true)
    (htrans : ∀ a b c, le a b = true → le b c = true → le a c = true) :
    ∀ l : List α, (sortBy le l).Pairwise (fun a b => le a b = true) := by
  intro l
  induction l with
  | nil => simp [sortBy]
  | cons x xs ih => exact insertSorted_pairwise htot htrans x (sortBy le xs) ih

theorem intLe_total : ∀ a b : Int, intLe a b = true ∨ intLe b a = true := by
  intro a b
  simp only [intLe, decide_eq_true_eq]
  omega

theorem intLe_trans : ∀ a b c : Int, intLe a b = true → intLe b c = true → intLe a c = true := by
  intro a b c
  simp only [intLe, decide_eq_true_eq]
  omega

theorem strLt_trans : ∀ a b c : Str, strLt a b = true → strLt b c = true → strLt a c = true := by
  intro a
  induction a with
  | nil =>
    intro b c hab hbc
    cases b with
    | nil => simp [strLt] at hab
    | cons y bs =>
      cases c with
      | nil => simp [strLt] at hbc
      | cons z cs => simp [strLt]
  | cons x as ih =>
    intro b c hab hbc
    cases b with
    | nil => simp [strLt] at hab
    | cons y bs =>
      cases c with
      | nil => simp [strLt] at hbc
      | cons z cs =>
        simp only [strLt] at hab hbc ⊢
        by_cases h1 : x < y
        · by_cases h2 : y < z
          · simp [lt_trans h1 h2]
          · rw [if_neg h2] at hbc
            by_cases h3 : y = z
            · subst h3
              simp [h1]
            · rw [if_neg h3] at hbc
              simp at hbc
        · rw [if_neg h1] at hab
          by_cases h3 : x = y
          · subst h3
            rw [if_pos rfl] at hab
            by_cases h2 : x < z
            · simp [h2]
            · rw [if_neg h2] at hbc
              by_cases h4 : x = z
              · subst h4
                rw [if_pos rfl] at hbc
                simp only [lt_irrefl, if_false, if_pos rfl]
                exact ih bs cs hab hbc
              · rw [if_neg h4] at hbc
                simp at hbc
          · rw [if_neg h3] at hab
            simp at hab

theorem strLt_connected : ∀ a b : Str, a ≠ b → strLt a b = true ∨ strLt b a = true := by
  intro a
  induction a with
  | nil =>
    intro b hne
    cases b with
    | nil => exact absurd rfl hne
    | cons y bs => left; simp [strLt]
  | cons x as ih =>
    intro b hne
    cases b with
    | nil => right; simp [strLt]
    | cons y bs =>
      rcases lt_trichotomy x y with h1 | h1 | h1
      · left; simp [strLt, h1]
      · subst h1
        have hne2 : as ≠ bs := by
          intro hcon
          exact hne (by rw [hcon])
        rcases ih bs hne2 with h2 | h2
        · left; simp [strLt, h2]
        · right; simp [strLt, h2]
      · right; simp [strLt, h1]

theorem strLe_total : ∀ a b : Str, strLe a b = true ∨ strLe b a = true := by
  intro a b
  by_cases h : a = b
  · subst h; left; simp [strLe]
  · rcases strLt_connected a b h with h1 | h1
    · left; simp [strLe, h1]
    · right; simp [strLe, h1]

theorem strLe_trans : ∀ a b c : Str, strLe a b = true → strLe b c = true → strLe a c = true := by
  intro a b c hab hbc
  simp only [strLe, Bool.or_eq_true, decide_eq_true_eq] at hab hbc ⊢
  rcases hab with hab | hab
  · rcases hbc with hbc | hbc
    · exact Or.inl (strLt_trans a b c hab hbc)
    · subst hbc; exact Or.inl hab
  · subst hab
    exact hbc

/-! ## Lemmas for the all-zero priority suffix -/

theorem splitOnGo_zeros : ∀ (L f : Nat) (acc : Str), L ≤ f →
    splitOnGo 't' ['o', 'd', 'o'] f (List.replicate L '0') acc =
      [acc.reverse ++ List.replicate L '0'] := by
  intro L
  induction L with
  | zero =>
    intro f acc _
    cases f with
    | zero => simp [splitOnGo]
    | succ f => simp [splitOnGo]
  | succ L ih =>
    intro f acc hf
    cases f with
    | zero => omega
    | succ f =>
      have hne : (('t' : Char) = '0') = False := by simp
      simp only [List.replicate_succ, splitOnGo, strStarts, hne, decide_False,
        Bool.false_and, Bool.false_eq_true, if_false]
      rw [ih f ('0' :: acc) (by omega)]
      simp

theorem strStarts_self_append : ∀ (p s : Str), strStarts p (p ++ s) = true := by
  intro p
  induction p with
  | nil => intro s; simp [strStarts]
  | cons c cs ih => intro s; simp [strStarts, ih]

theorem splitOnStr_todo_zeros (L : Nat) :
    splitOnStr (str "todo") (str "todo" ++ List.replicate L '0') =
      [[], List.replicate L '0'] := by
  have hpat : str "todo" = 't' :: ['o', 'd', 'o'] := rfl
  have hlen : (str "todo" ++ List.replicate L '0').length = L + 4 := by
    rw [hpat]
    simp [List.length_append]
  rw [hpat]
  show splitOnGo 't' ['o', 'd', 'o'] (('t' :: ['o', 'd', 'o'] ++ List.replicate L '0').length)
      ('t' :: ['o', 'd', 'o'] ++ List.replicate L '0') [] = _
  rw [show ('t' :: ['o', 'd', 'o'] ++ List.replicate L '0').length = L + 4 from by
    rw [← hpat]; exact hlen]
  show splitOnGo 't' ['o', 'd', 'o'] (L + 3 + 1) ('t' :: (['o', 'd', 'o'] ++ List.replicate L '0')) [] = _
  rw [splitOnGo]
  rw [if_pos (by exact strStarts_self_append ('t' :: ['o', 'd', 'o']) (List.replicate L '0'))]
  simp only [List.reverse_nil]
  rw [show List.drop (['o', 'd', 'o'] : Str).length (['o', 'd', 'o'] ++ List.replicate L '0') =
      List.replicate L '0' from List.drop_left _ _]
  rw [splitOnGo_zeros L (L + 3) [] (by omega)]
  simp

theorem lowerStr_todo_zeros (L : Nat) :
    lowerStr (str "todo" ++ List.replicate L '0') = str "todo" ++ List.replicate L '0' := by
  unfold lowerStr
  rw [List.map_append, List.map_replicate]
  have h1 : List.map toLowerChar (str "todo") = str "todo" := by decide
  have h2 : toLowerChar '0' = '0' := by decide
  rw [h1, h2]

theorem utf8Len_foldl_aux : ∀ (s : Str) (a : Nat),
    List.foldl (fun n c => n + c.utf8Size) a s = a + utf8Len s := by
  intro s
  induction s with
  | nil => intro a; simp [utf8Len]
  | cons c t ih =>
    intro a
    show List.foldl (fun n c => n + c.utf8Size) (a + c.utf8Size) t = a + utf8Len (c :: t)
    rw [ih (a + c.utf8Size)]
    have : utf8Len (c :: t) = 0 + c.utf8Size + utf8Len t := by
      show List.foldl (fun n c => n + c.utf8Size) 0 (c :: t) = _
      simp only [List.foldl_cons]
      rw [ih (0 + c.utf8Size)]
    omega

theorem utf8Len_replicate_zero (k : Nat) : utf8Len (List.replicate k '0') = k := by
  induction k with
  | zero => rfl
  | succ k ih =>
    simp only [List.replicate_succ]
    show List.foldl (fun n c => n + c.utf8Size) 0 ('0' :: List.replicate k '0') = k + 1
    simp only [List.foldl_cons]
    rw [utf8Len_foldl_aux, ih]
    have hz : ('0' : Char).utf8Size = 1 := by decide
    omega

/-- parse_priority on todo followed by one or more zeros: the value is
one minus the number of zeros. -/
theorem parse_priority_zeros (L : Nat) (h : 1 ≤ L) :
    parse_priority (str "todo" ++ List.replicate L '0') = some (some (1 - (L : Int))) := by
  unfold parse_priority
  rw [lowerStr_todo_zeros, splitOnStr_todo_zeros]
  simp only [List.get?]
  cases L with
  | zero => omega
  | succ L =>
    cases L with
    | zero => decide
    | succ L =>
      rw [utf8Len_replicate_zero]
      rw [if_neg (by omega)]
      rw [if_pos (by
        simp only [List.all_eq_true, decide_eq_true_eq]
        intro x hx
        exact List.eq_of_mem_replicate hx)]
      simp [List.length_replicate]

/-! ## Lemmas about the gitignore importer and the walker -/

theorem processIgnoreLines_cons (env : Env) (base line : Str) (rest : List Str)
    (acc : List Str) :
    processIgnoreLines env base (line :: rest) acc =
      if strTrim line = [] then processIgnoreLines env base rest acc
      else if strTrim line = ['*'] then
        match env.canonicalize base with
        | some rp => some (acc ++ [rp])
        | none => some acc
      else if strStarts ['!'] (strTrim line) then processIgnoreLines env base rest acc
      else if strStarts ['#'] (strTrim line) then processIgnoreLines env base rest acc
      else
        match env.glob (joinPath base (trimMatchesChar '/' (trimEndRun (str "*/") line))) with
        | none => none
        | some results =>
          match pushGlobResults env results acc with
          | none => none
          | some acc2 => processIgnoreLines env base rest acc2 := rfl

/-- A star line ends the import, appending the canonicalized base
directory; the remaining lines are never read. -/
theorem processIgnoreLines_star {env : Env} {base starLine cdir : Str} {acc : List Str}
    (hstar : strTrim starLine = ['*']) (hcanon : env.canonicalize base = some cdir)
    (rest : List Str) :
    processIgnoreLines env base (starLine :: rest) acc = some (acc ++ [cdir]) := by
  rw [processIgnoreLines_cons, hstar]
  simp [hcanon]

/-- Splitting the line list at any point, when the first part has no
star line, splits the import into sequential processing. -/
theorem processIgnoreLines_append {env : Env} {base : Str} (ls₂ : List Str) :
    ∀ (ls₁ : List Str) (acc : List Str), (∀ l ∈ ls₁, strTrim l ≠ ['*']) →
    processIgnoreLines env base (ls₁ ++ ls₂) acc =
      match processIgnoreLines env base ls₁ acc with
      | none => none
      | some acc1 => processIgnoreLines env base ls₂ acc1 := by
  intro ls₁
  induction ls₁ with
  | nil =>
    intro acc _
    rfl
  | cons l ls ih =>
    intro acc hno
    have hl : strTrim l ≠ ['*'] := hno l (by simp)
    have hls : ∀ x ∈ ls, strTrim x ≠ ['*'] := fun x hx => hno x (by simp [hx])
    show processIgnoreLines env base (l :: (ls ++ ls₂)) acc = _
    rw [processIgnoreLines_cons, processIgnoreLines_cons]
    by_cases h1 : strTrim l = []
    · simp only [h1, if_true]
      exact ih acc hls
    · rw [if_neg h1, if_neg h1, if_neg hl, if_neg hl]
      by_cases h2 : strStarts ['!'] (strTrim l) = true
      · simp only [h2, if_true]
        exact ih acc hls
      · rw [if_neg h2, if_neg h2]
        by_cases h3 : strStarts ['#'] (strTrim l) = true
        · simp only [h3, if_true]
          exact ih acc hls
        · rw [if_neg h3, if_neg h3]
          cases hg : env.glob (joinPath base (trimMatchesChar '/' (trimEndRun (str "*/") l))) with
          | none => simp
          | some results =>
            simp only
            cases hp : pushGlobResults env results acc with
            | none => simp
            | some acc2 =>
              simp only
              exact ih acc2 hls

/-- When the directory canonicalizes to a member of the exclude list,
the re-check reports it excluded. -/
theorem recheck_mem {env : Env} {dir cd : Str} (hcanon : env.canonicalize dir = some cd) :
    ∀ {excl : List Str}, cd ∈ excl → recheck env dir excl = some true := by
  intro excl
  induction excl with
  | nil => intro h; simp at h
  | cons e rest ih =>
    intro hmem
    unfold recheck
    rw [hcanon]
    by_cases he : cd = e
    · simp [he]
    · rcases List.mem_cons.mp hmem with h | h
      · exact absurd h he
      · simp only [he, if_false]
        exact ih h

/-- A matched path that fails to canonicalize contributes no exclude
and processing of the remaining matches continues. -/
theorem pushGlobResults_skip {env : Env} {p : Str} (hcanon : env.canonicalize p = none)
    (rest : List (Option Str)) (acc : List Str) :
    pushGlobResults env (some p :: rest) acc = pushGlobResults env rest acc := by
  show (match env.canonicalize p with
        | some e => pushGlobResults env rest (acc ++ [e])
        | none => pushGlobResults env rest acc) = pushGlobResults env rest acc
  rw [hcanon]

theorem pushGlobResults_total {env : Env} :
    ∀ {rs : List (Option Str)}, (∀ r ∈ rs, r ≠ none) →
    ∀ acc, ∃ acc2, pushGlobResults env rs acc = some acc2 := by
  intro rs
  induction rs with
  | nil => intro _ acc; exact ⟨acc, rfl⟩
  | cons r rest ih =>
    intro hall acc
    cases r with
    | none => exact absurd rfl (hall none (by simp))
    | some p =>
      have hrest : ∀ x ∈ rest, x ≠ none := fun x hx => hall x (by simp [hx])
      unfold pushGlobResults
      cases hc : env.canonicalize p with
      | none => exact ih hrest acc
      | some e => exact ih hrest (acc ++ [e])

/-- When every glob expansion succeeds with no per-entry errors, the
importer never fails, whatever the canonicalization results are. -/
theorem processIgnoreLines_total {env : Env} {base : Str}
    (hglob : ∀ pat, ∃ rs, env.glob pat = some rs ∧ ∀ r ∈ rs, r ≠ none) :
    ∀ (lines : List Str) (acc : List Str),
    ∃ acc2, processIgnoreLines env base lines acc = some acc2 := by
  intro lines
  induction lines with
  | nil => intro acc; exact ⟨acc, rfl⟩
  | cons l rest ih =>
    intro acc
    rw [processIgnoreLines_cons]
    by_cases h1 : strTrim l = []
    · simp only [h1, if_true]; exact ih acc
    · rw [if_neg h1]
      by_cases hs : strTrim l = ['*']
      · simp only [hs, if_true]
        cases hc : env.canonicalize base with
        | none => exact ⟨acc, rfl⟩
        | some rp => exact ⟨acc ++ [rp], rfl⟩
      · rw [if_neg hs]
        by_cases h2 : strStarts ['!'] (strTrim l) = true
        · simp only [h2, if_true]; exact ih acc
        · rw [if_neg h2]
          by_cases h3 : strStarts ['#'] (strTrim l) = true
          · simp only [h3, if_true]; exact ih acc
          · rw [if_neg h3]
            rcases hglob (joinPath base (trimMatchesChar '/' (trimEndRun (str "*/") l))) with
              ⟨rs, hrs, hall⟩
            rcases @pushGlobResults_total env rs hall acc with ⟨acc2, hacc2⟩
            simp only [hrs, hacc2]
            exact ih acc2

/-! ## Claim theorems -/

/-- C10: the structured scanners panic (modelled as `none`) on inputs
containing a heading line that starts with '#' but has no "# "
substring, such as "#foo" or "###", instead of producing entries; a
heading that does contain "# " is processed without panic. -/
theorem C10_heading_unwrap_panics :
    scan_todo_file (str "#foo\n- x") (str "t") = none ∧
    scan_readme_file (str "###") (str "r") = none ∧
    (scan_todo_file (str "# ok\n- x") (str "t")).isSome = true := by decide

/-- C2: the priority encoding of the marker parser: todo0 is priority 0,
todo00 is -1, todo000 is -2, an all-zero suffix of length L gives 1 - L,
todo1 through todo9 give 1 through 9, and a mixed digit suffix such as
todo11 produces no entry; at entry level a file with these tokens gets
exactly the corresponding Priority entries and none for todo11. -/
theorem C2_priority_encoding :
    parse_priority (str "todo0") = some (some 0) ∧
    parse_priority (str "todo00") = some (some (-1)) ∧
    parse_priority (str "todo000") = some (some (-2)) ∧
    (∀ L : Nat, 1 ≤ L →
      parse_priority (str "todo" ++ List.replicate L '0') = some (some (1 - (L : Int)))) ∧
    (parse_priority (str "todo1") = some (some 1) ∧ parse_priority (str "todo2") = some (some 2) ∧
     parse_priority (str "todo3") = some (some 3) ∧ parse_priority (str "todo4") = some (some 4) ∧
     parse_priority (str "todo5") = some (some 5) ∧ parse_priority (str "todo6") = some (some 6) ∧
     parse_priority (str "todo7") = some (some 7) ∧ parse_priority (str "todo8") = some (some 8) ∧
     parse_priority (str "todo9") = some (some 9)) ∧
    parse_priority (str "todo11") = some none ∧
    scan_string (str "todo0\ntodo00\ntodo000\ntodo1 a\ntodo9\ntodo11") (str "f") =
      some [⟨[], ⟨str "f", 1⟩, .Priority 0⟩, ⟨[], ⟨str "f", 2⟩, .Priority (-1)⟩,
            ⟨[], ⟨str "f", 3⟩, .Priority (-2)⟩, ⟨str "a", ⟨str "f", 4⟩, .Priority 1⟩,
            ⟨[], ⟨str "f", 5⟩, .Priority 9⟩] :=
  ⟨by decide, by decide, by decide, parse_priority_zeros, by decide, by decide, by decide⟩

/-- Witness for C2 at five zeros. -/
theorem C2_priority_encoding_witness :
    parse_priority (str "todo" ++ List.replicate 5 '0') = some (some (-4)) := by
  have h := C2_priority_encoding.2.2.2.1 5 (by decide)
  simpa using h

/-- C3 fails on the code: for a token with two '@' characters the
category is the text between the first and the second '@', not
everything after the first '@': todo@a@b yields Category("a"), and
"a" differs from the claimed "a@b". -/
theorem C3_counterexample_second_at :
    scan_string (str "todo@a@b") (str "f") =
      some [⟨[], ⟨str "f", 1⟩, .Category (str "a")⟩] ∧
    str "a" ≠ str "a@b" := by decide

/-- C3 amended: a reached token containing '@' (not macro, not bare)
produces exactly one Category(X) entry where X is the piece of the
colon-stripped token between its first and second '@' (everything after
the first '@' when there is no second one). -/
theorem C3_amended_category {path : Str} {n : Nat} {line : Str}
    {ws₁ : List Str} {w : Str} {ws₂ : List Str} {t X : Str}
    (hsplit : splitWhitespace line = ws₁ ++ w :: ws₂)
    (hcontains : strContains (lowerStr line) (str "todo") = true)
    (hws : ∀ u ∈ ws₁, scanWordStep path n line u = .cont)
    (hpref : strStarts (str "todo") (lowerStr w) = true)
    (hclean : clean_line line w = some t)
    (hmac : strStarts (str "todo!(") w = false)
    (hbare : bareTest w = false)
    (hat : (trimEndRun [':'] w).any (fun c => c = '@') = true)
    (hX : (splitOnStr ['@'] (trimEndRun [':'] w)).get? 1 = some X) :
    scanLine path n line = some [⟨t, ⟨path, n + 1⟩, .Category X⟩] := by
  have hstep : scanWordStep path n line w = .stop [⟨t, ⟨path, n + 1⟩, .Category X⟩] := by
    unfold scanWordStep
    simp only [hpref, hclean, hmac, hbare, hat, hX]
    simp
  unfold scanLine
  rw [if_pos hcontains, hsplit, scanWords_append_cont hws, scanWords_cons, hstep]

/-- Witness for C3 amended, on the spec's own scenario line. -/
theorem C3_amended_category_witness :
    scanLine (str "f") 0 (str "todo@bar abc def") =
      some [⟨str "abc def", ⟨str "f", 1⟩, .Category (str "bar")⟩] :=
  @C3_amended_category (str "f") 0 (str "todo@bar abc def") [] (str "todo@bar")
    [str "abc", str "def"] (str "abc def") (str "bar")
    (by decide) (by decide) (by intro u hu; simp at hu) (by decide) (by decide)
    (by decide) (by decide) (by decide) (by decide)

/-- C4 fails on the code: the token loop of scan_string breaks
unconditionally once a digit-bearing todo token is seen, so after the
malformed todo11 the valid todo1 on the same line is never parsed and
the line yields no entry at all, rather than continuing. -/
theorem C4_counterexample_break :
    scan_string (str "todo11 todo1") (str "f") = some [] ∧
    ([] : List Entry) ≠ [⟨[], ⟨str "f", 1⟩, .Priority 1⟩] := by decide

/-- C4 amended: a line never yields more than one entry from
scan_string, and a reached digit-bearing todo token with a malformed
suffix ends the line scan with no entry produced for the whole line. -/
theorem C4_amended_line_stops {path : Str} {n : Nat} {line : Str} :
    (∀ es, scanLine path n line = some es → es.length ≤ 1) ∧
    (∀ ws₁ w ws₂ t,
      splitWhitespace line = ws₁ ++ w :: ws₂ →
      strContains (lowerStr line) (str "todo") = true →
      (∀ u ∈ ws₁, scanWordStep path n line u = .cont) →
      strStarts (str "todo") (lowerStr w) = true →
      clean_line line w = some t →
      strStarts (str "todo!(") w = false →
      bareTest w = false →
      (trimEndRun [':'] w).any (fun c => c = '@') = false →
      (trimEndRun [':'] w).any (fun c => PRIORITY_CHARS.contains c) = true →
      parse_priority (trimEndRun [':'] w) = some none →
      scanLine path n line = some []) := by
  constructor
  · intro es h
    exact (scanLine_some h).1
  · intro ws₁ w ws₂ t hsplit hcontains hws hpref hclean hmac hbare hat hdig hparse
    have hstep : scanWordStep path n line w = .stop [] := by
      unfold scanWordStep
      simp only [hpref, hclean, hmac, hbare, hat, hdig, hparse]
      simp
    unfold scanLine
    rw [if_pos hcontains, hsplit, scanWords_append_cont hws, scanWords_cons, hstep]

/-- Witness for C4 amended at the counterexample line itself. -/
theorem C4_amended_line_stops_witness :
    scanLine (str "f") 0 (str "todo11 todo1") = some [] :=
  (@C4_amended_line_stops (str "f") 0 (str "todo11 todo1")).2
    [] (str "todo11") [str "todo1"] (str "todo1")
    (by decide) (by decide) (by intro u hu; simp at hu) (by decide) (by decide)
    (by decide) (by decide) (by decide) (by decide) (by decide)

/-- An equation lemma for one step of the walker. -/
theorem scan_dir_succ (env : Env) (fuel : Nat) (dir : Str) (st : ScanState) :
    scan_dir env (fuel + 1) dir st =
      match env.gitignore dir with
      | some _ =>
        match add_excludes_from_gitignore env dir st.excludes with
        | none => none
        | some excl2 =>
          match recheck env dir excl2 with
          | none => none
          | some true => some { st with excludes := excl2 }
          | some false =>
            match env.readDir dir with
            | none => none
            | some names =>
              scanKids env (fun p s => scan_dir env fuel p s) dir names
                { st with excludes := excl2, visitedFolders := st.visitedFolders + 1 }
      | none =>
        match env.readDir dir with
        | none => none
        | some names =>
          scanKids env (fun p s => scan_dir env fuel p s) dir names
            { st with visitedFolders := st.visitedFolders + 1 } := rfl

/-- C6: a .gitignore line trimming to "*" makes the importer append the
canonicalized base directory and read no further lines, and the walker's
re-check then returns before visiting any child: the resulting state has
the same entries and stats, only the exclude list grew, whatever
readDir would have returned and whatever follows the star line. -/
theorem C6_star_excludes_directory {env : Env} {dir gi cdir starLine : Str}
    {fuel : Nat} {st : ScanState} {ls₁ ls₂ : List Str} {excl₁ : List Str}
    (hgi : env.gitignore dir = some gi)
    (hlines : rustLines gi = ls₁ ++ starLine :: ls₂)
    (hstar : strTrim starLine = ['*'])
    (hnostar : ∀ l ∈ ls₁, strTrim l ≠ ['*'])
    (hproc : processIgnoreLines env dir ls₁ st.excludes = some excl₁)
    (hcanon : env.canonicalize dir = some cdir) :
    scan_dir env (fuel + 1) dir st = some { st with excludes := excl₁ ++ [cdir] } := by
  have himp : add_excludes_from_gitignore env dir st.excludes = some (excl₁ ++ [cdir]) := by
    unfold add_excludes_from_gitignore
    simp only [hgi]
    rw [hlines]
    rw [processIgnoreLines_append (starLine :: ls₂) ls₁ st.excludes hnostar]
    rw [hproc]
    exact processIgnoreLines_star hstar hcanon ls₂
  have hrc : recheck env dir (excl₁ ++ [cdir]) = some true :=
    recheck_mem hcanon (by simp)
  rw [scan_dir_succ, hgi]
  simp only [himp, hrc]

/-- Witness for C6: a directory whose .gitignore is the single line "*"
is excluded whole; readDir is an erroring stub, demonstrating that no
child enumeration happens. -/
theorem C6_star_excludes_directory_witness :
    scan_dir
      ⟨fun p => some p, fun _ => some [], fun d => if d = str "proj" then some (str "*") else none,
       fun _ => none, fun _ => false, fun _ => none⟩
      1 (str "proj") ⟨[], [], 0, 0⟩ = some ⟨[], [str "proj"], 0, 0⟩ := by
  have h := @C6_star_excludes_directory
    ⟨fun p => some p, fun _ => some [], fun d => if d = str "proj" then some (str "*") else none,
     fun _ => none, fun _ => false, fun _ => none⟩
    (str "proj") (str "*") (str "proj") (str "*") 0 ⟨[], [], 0, 0⟩ [] [] []
    (by decide) (by decide) (by decide) (by intro l hl; simp at hl) (by decide) (by decide)
  simpa using h

/-- C8 fails on the code: a malformed glob pattern line does not recover
locally; glob(pattern).unwrap() panics (modelled `none`), the remaining
lines (here "good") are never processed, and the importer aborts the
run.  The environment reports a pattern error for every glob call, as
the real glob crate does for the pattern d/x*[. -/
theorem C8_counterexample_malformed_glob :
    add_excludes_from_gitignore
      ⟨fun p => some p, fun _ => none, fun _ => some (str "x*[\ngood"), fun _ => none,
       fun _ => false, fun _ => none⟩ (str "d") [] = none := by decide

/-- C8 amended: only the canonicalize failures are recovered locally: a
matched path that fails to canonicalize contributes no exclude and the
remaining matches and lines are still processed, and when every glob
expansion succeeds the importer always succeeds; a malformed glob
pattern, by contrast, panics (see the counterexample). -/
theorem C8_amended_canonicalize_recovered {env : Env} {base : Str}
    (hglob : ∀ pat, ∃ rs, env.glob pat = some rs ∧ ∀ r ∈ rs, r ≠ none) :
    (∀ lines acc, ∃ acc2, processIgnoreLines env base lines acc = some acc2) ∧
    (∀ p rest acc, env.canonicalize p = none →
      pushGlobResults env (some p :: rest) acc = pushGlobResults env rest acc) :=
  ⟨processIgnoreLines_total hglob, fun p rest acc hc => pushGlobResults_skip hc rest acc⟩

/-- Witness for C8 amended: an environment where nothing canonicalizes
still imports a two-line ignore file successfully. -/
theorem C8_amended_canonicalize_recovered_witness :
    ∃ acc2, processIgnoreLines
      ⟨fun _ => none, fun _ => some [some (str "m")], fun _ => none, fun _ => none,
       fun _ => false, fun _ => none⟩ (str "d") (rustLines (str "a\nb")) [] = some acc2 := by
  have h := @C8_amended_canonicalize_recovered
    ⟨fun _ => none, fun _ => some [some (str "m")], fun _ => none, fun _ => none,
     fun _ => false, fun _ => none⟩ (str "d")
    (by
      intro pat
      refine ⟨[some (str "m")], rfl, ?_⟩
      intro r hr
      simp at hr
      simp [hr])
  exact h.1 (rustLines (str "a\nb")) []

/-- C7 fails on the code: when the found todo-digit token has a
malformed priority suffix, the structured scanner skips the line with
no entry at all; the claim's fallback Generic entry is not produced. -/
theorem C7_counterexample_failed_parse :
    scan_todo_file (str "- todo11 x") (str "t") = some [] ∧
    some ([] : List Entry) ≠ some [⟨str "todo11 x", ⟨str "t", 1⟩, .Generic⟩] := by decide

/-- C7 amended: for a qualifying list-item line, when the first
todo-digit token parses as a priority both scanners emit exactly one
Priority entry with the cleaned text and finish the line; when it fails
to parse, both emit nothing for the line; only when there is no
todo-digit token at all does the line fall back to one Category entry
(todo-file, under a heading) or one Generic entry, with the list-mark
prefix stripped from the left-trimmed line. -/
theorem C7_amended_list_lines {path : Str} {n : Nat} {cat : Option Str} {line : Str} :
    (∀ w p t, findTodoDigitWord (splitWhitespace line) = some w →
      parse_priority (trimEndRun [':'] w) = some (some p) →
      clean_line line w = some t →
      scanTodoLine path n cat line = some [⟨t, ⟨path, n + 1⟩, .Priority p⟩] ∧
      scanReadmeLine path n line = some [⟨t, ⟨path, n + 1⟩, .Priority p⟩]) ∧
    (∀ w, findTodoDigitWord (splitWhitespace line) = some w →
      parse_priority (trimEndRun [':'] w) = some none →
      scanTodoLine path n cat line = some [] ∧ scanReadmeLine path n line = some []) ∧
    (findTodoDigitWord (splitWhitespace line) = none →
      scanTodoLine path n cat line =
        some [⟨stripListMark line, ⟨path, n + 1⟩,
          match cat with
          | some c => .Category c
          | none => .Generic⟩] ∧
      scanReadmeLine path n line = some [⟨stripListMark line, ⟨path, n + 1⟩, .Generic⟩]) := by
  refine ⟨?_, ?_, ?_⟩
  · intro w p t hw hp ht
    constructor
    · unfold scanTodoLine
      simp only [hw, hp, ht]
    · unfold scanReadmeLine
      simp only [hw, hp, ht]
  · intro w hw hp
    constructor
    · unfold scanTodoLine
      simp only [hw, hp]
    · unfold scanReadmeLine
      simp only [hw, hp]
  · intro hw
    constructor
    · unfold scanTodoLine
      simp only [hw]
    · unfold scanReadmeLine
      simp only [hw]

/-- Witness for C7 amended on a priority list item. -/
theorem C7_amended_list_lines_witness :
    scanTodoLine (str "t") 0 (some (str "High")) (str "- todo1: fix") =
      some [⟨str "fix", ⟨str "t", 1⟩, .Priority 1⟩] :=
  ((@C7_amended_list_lines (str "t") 0 (some (str "High")) (str "- todo1: fix")).1
    (str "todo1:") 1 (str "fix") (by decide) (by decide) (by decide)).1

theorem scanTodoLine_priority_trim {path : Str} {n : Nat} {cat : Option Str} {line : Str}
    {es : List Entry} (h : scanTodoLine path n cat line = some es) :
    ∀ e ∈ es, ∀ p : Int, e.data = EntryData.Priority p → strTrim e.text = e.text := by
  unfold scanTodoLine at h
  cases hw : findTodoDigitWord (splitWhitespace line) with
  | some w =>
    simp only [hw] at h
    cases hp : parse_priority (trimEndRun [':'] w) with
    | none => simp only [hp] at h; simp at h
    | some po =>
      simp only [hp] at h
      cases po with
      | none =>
        simp only [Option.some.injEq] at h
        subst h
        intro e he
        simp at he
      | some p =>
        cases ht : clean_line line w with
        | none => simp only [ht] at h; simp at h
        | some t =>
          simp only [ht] at h
          simp only [Option.some.injEq] at h
          subst h
          intro e he
          simp at he
          subst he
          intro q _
          exact clean_line_trim ht
  | none =>
    simp only [hw] at h
    simp only [Option.some.injEq] at h
    subst h
    intro e he
    simp at he
    subst he
    intro q hq
    cases cat with
    | some c => simp at hq
    | none => simp at hq

theorem scanReadmeLine_priority_trim {path : Str} {n : Nat} {line : Str}
    {es : List Entry} (h : scanReadmeLine path n line = some es) :
    ∀ e ∈ es, ∀ p : Int, e.data = EntryData.Priority p → strTrim e.text = e.text := by
  unfold scanReadmeLine at h
  cases hw : findTodoDigitWord (splitWhitespace line) with
  | some w =>
    simp only [hw] at h
    cases hp : parse_priority (trimEndRun [':'] w) with
    | none => simp only [hp] at h; simp at h
    | some po =>
      simp only [hp] at h
      cases po with
      | none =>
        simp only [Option.some.injEq] at h
        subst h
        intro e he
        simp at he
      | some p =>
        cases ht : clean_line line w with
        | none => simp only [ht] at h; simp at h
        | some t =>
          simp only [ht] at h
          simp only [Option.some.injEq] at h
          subst h
          intro e he
          simp at he
          subst he
          intro q _
          exact clean_line_trim ht
  | none =>
    simp only [hw] at h
    simp only [Option.some.injEq] at h
    subst h
    intro e he
    simp at he
    subst he
    intro q hq
    simp at hq

theorem scanTodoGo_priority_trim {path : Str} :
    ∀ {ls : List Str} {n : Nat} {cat : Option Str} {es : List Entry},
    scanTodoGo path n cat ls = some es →
    ∀ e ∈ es, ∀ p : Int, e.data = EntryData.Priority p → strTrim e.text = e.text := by
  intro ls
  induction ls with
  | nil =>
    intro n cat es h
    simp [scanTodoGo] at h
    subst h
    intro e he
    simp at he
  | cons line rest ih =>
    intro n cat es h
    unfold scanTodoGo at h
    split at h
    · cases hsp : splitOnce (str "# ") line with
      | none => simp only [hsp] at h; simp at h
      | some pr =>
        simp only [hsp] at h
        exact ih h
    · split at h
      · exact ih h
      · cases hl : scanTodoLine path n cat line with
        | none => simp only [hl] at h; simp at h
        | some es1 =>
          simp only [hl] at h
          cases hr : scanTodoGo path (n + 1) cat rest with
          | none => simp only [hr] at h; simp at h
          | some more =>
            simp only [hr] at h
            simp only [Option.some.injEq] at h
            subst h
            intro e he
            rcases List.mem_append.mp he with he1 | he2
            · exact scanTodoLine_priority_trim hl e he1
            · exact ih hr e he2

theorem scanReadmeGo_priority_trim {path : Str} :
    ∀ {ls : List Str} {n : Nat} {inT : Bool} {es : List Entry},
    scanReadmeGo path n inT ls = some es →
    ∀ e ∈ es, ∀ p : Int, e.data = EntryData.Priority p → strTrim e.text = e.text := by
  intro ls
  induction ls with
  | nil =>
    intro n inT es h
    simp [scanReadmeGo] at h
    subst h
    intro e he
    simp at he
  | cons line rest ih =>
    intro n inT es h
    unfold scanReadmeGo at h
    split at h
    · cases hsp : splitOnce (str "# ") line with
      | none => simp only [hsp] at h; simp at h
      | some pr =>
        simp only [hsp] at h
        exact ih h
    · split at h
      · exact ih h
      · split at h
        · exact ih h
        · cases hl : scanReadmeLine path n line with
          | none => simp only [hl] at h; simp at h
          | some es1 =>
            simp only [hl] at h
            cases hr : scanReadmeGo path (n + 1) inT rest with
            | none => simp only [hr] at h; simp at h
            | some more =>
              simp only [hr] at h
              simp only [Option.some.injEq] at h
              subst h
              intro e he
              rcases List.mem_append.mp he with he1 | he2
              · exact scanReadmeLine_priority_trim hl e he1
              · exact ih hr e he2

/-- C9 fails on the code: the structured scanners' fallback entries keep
the raw right end of the line: "- foo */ " yields the Generic text
"foo */ ", which still carries trailing whitespace and a comment
closer. -/
theorem C9_counterexample_untrimmed :
    scan_todo_file (str "- foo */ ") (str "t") =
      some [⟨str "foo */ ", ⟨str "t", 1⟩, .Generic⟩] ∧
    strTrim (str "foo */ ") ≠ str "foo */ " := by decide

/-- C9 amended: every entry produced by scan_string has whitespace-
trimmed text (the clean_line pipeline also strips the comment closers;
the macro form is trimmed only), and every Priority entry produced by
the structured scanners has whitespace-trimmed, closer-stripped text;
the structured scanners' Category/Generic fallback texts are only
left-processed and are not covered by the invariant. -/
theorem C9_amended_trimmed_texts :
    (∀ (s path : Str) (es : List Entry), scan_string s path = some es →
      ∀ e ∈ es, strTrim e.text = e.text) ∧
    (∀ (c path : Str) (es : List Entry), scan_todo_file c path = some es →
      ∀ e ∈ es, ∀ p : Int, e.data = EntryData.Priority p → strTrim e.text = e.text) ∧
    (∀ (c path : Str) (es : List Entry), scan_readme_file c path = some es →
      ∀ e ∈ es, ∀ p : Int, e.data = EntryData.Priority p → strTrim e.text = e.text) := by
  refine ⟨?_, ?_, ?_⟩
  · intro s path es h e he
    exact (scanLinesGo_some h e he).2
  · intro c path es h e he p hp
    exact scanTodoGo_priority_trim h e he p hp
  · intro c path es h e he p hp
    exact scanReadmeGo_priority_trim h e he p hp

/-- Witness for C9 amended on the spec's scenario line. -/
theorem C9_amended_trimmed_texts_witness :
    strTrim (str "foo bar") = str "foo bar" :=
  C9_amended_trimmed_texts.1 (str "// TODO: foo bar */") (str "f")
    [⟨str "foo bar", ⟨str "f", 1⟩, .Generic⟩] (by decide)
    ⟨str "foo bar", ⟨str "f", 1⟩, .Generic⟩ (by decide)

theorem scanLinesGo_append_some {path : Str} :
    ∀ {ls₁ : List Str} {ls₂ : List Str} {n : Nat} {es : List Entry},
    scanLinesGo path n (ls₁ ++ ls₂) = some es →
    ∃ a b, scanLinesGo path n ls₁ = some a ∧
      scanLinesGo path (n + ls₁.length) ls₂ = some b ∧ es = a ++ b := by
  intro ls₁
  induction ls₁ with
  | nil =>
    intro ls₂ n es h
    exact ⟨[], es, rfl, by simpa using h, rfl⟩
  | cons l ls ih =>
    intro ls₂ n es h
    rw [List.cons_append, scanLinesGo_cons] at h
    cases h1 : scanLine path n l with
    | none => rw [h1] at h; simp at h
    | some es1 =>
      rw [h1] at h
      simp only at h
      cases h2 : scanLinesGo path (n + 1) (ls ++ ls₂) with
      | none => rw [h2] at h; simp at h
      | some rest =>
        rw [h2] at h
        simp only [Option.some.injEq] at h
        rcases ih h2 with ⟨a, b, ha, hb, hrest⟩
        refine ⟨es1 ++ a, b, ?_, ?_, ?_⟩
        · rw [scanLinesGo_cons, h1, ha]
        · rw [show n + (l :: ls).length = n + 1 + ls.length from by
            simp [List.length_cons]; omega]
          exact hb
        · rw [← h, hrest, List.append_assoc]

/-- C1 fails on the code: a line holding a bare todo token can be
preempted by an earlier matching token; "todo@x todo" contains the bare
token "todo" yet produces only a Category entry and no Generic entry. -/
theorem C1_counterexample_preempted :
    scan_string (str "todo@x todo") (str "f") =
      some [⟨str "todo", ⟨str "f", 1⟩, .Category (str "x")⟩] ∧
    (∀ e ∈ [(⟨str "todo", ⟨str "f", 1⟩, .Category (str "x")⟩ : Entry)],
      e.data ≠ EntryData.Generic) := by decide

/-- C1 amended: when the FIRST form-matching todo token of the line is
the bare marker (all earlier tokens fall through the parser), the scan
of that line produces exactly one Generic entry, whose text is the
cleaned remainder after the token: among the entries scan_string
returns, those located on that line are exactly this one entry. -/
theorem C1_amended_bare_generic {s path : Str} {es : List Entry} {ls₁ ls₂ : List Str}
    {line : Str} {ws₁ : List Str} {w : Str} {ws₂ : List Str} {t : Str}
    (hscan : scan_string s path = some es)
    (hlines : rustLines s = ls₁ ++ line :: ls₂)
    (hsplit : splitWhitespace line = ws₁ ++ w :: ws₂)
    (hcontains : strContains (lowerStr line) (str "todo") = true)
    (hws : ∀ u ∈ ws₁, scanWordStep path ls₁.length line u = .cont)
    (hpref : strStarts (str "todo") (lowerStr w) = true)
    (hclean : clean_line line w = some t)
    (hmac : strStarts (str "todo!(") w = false)
    (hbare : bareTest w = true) :
    es.filter (fun e => e.location.line = ls₁.length + 1) =
      [⟨t, ⟨path, ls₁.length + 1⟩, .Generic⟩] := by
  -- the line itself produces exactly the one Generic entry
  have hstep : scanWordStep path ls₁.length line w =
      .stop [⟨t, ⟨path, ls₁.length + 1⟩, .Generic⟩] := by
    unfold scanWordStep
    simp only [hpref, hclean, hmac, hbare]
    simp
  have hline : scanLine path ls₁.length line =
      some [⟨t, ⟨path, ls₁.length + 1⟩, .Generic⟩] := by
    unfold scanLine
    rw [if_pos hcontains, hsplit, scanWords_append_cont hws, scanWords_cons, hstep]
  -- decompose the whole scan at the line
  unfold scan_string at hscan
  rw [hlines] at hscan
  rcases scanLinesGo_append_some hscan with ⟨a, b, ha, hb, hes⟩
  rw [Nat.zero_add] at hb
  rw [scanLinesGo_cons, hline] at hb
  cases hc : scanLinesGo path (ls₁.length + 1) ls₂ with
  | none => rw [hc] at hb; simp at hb
  | some c =>
    rw [hc] at hb
    simp only [Option.some.injEq] at hb
    subst hb
    subst hes
    -- entries of `a` lie on earlier lines, entries of `c` on later ones
    have hafilter : a.filter (fun e => e.location.line = ls₁.length + 1) = [] := by
      rw [List.filter_eq_nil_iff]
      intro e he
      have := (scanLinesGo_some ha e he).1
      simp only [decide_eq_true_eq]
      omega
    have hcfilter : c.filter (fun e => e.location.line = ls₁.length + 1) = [] := by
      rw [List.filter_eq_nil_iff]
      intro e he
      have := (scanLinesGo_some hc e he).1
      simp only [decide_eq_true_eq]
      omega
    rw [List.filter_append, List.filter_append, hafilter, hcfilter]
    simp

/-- Witness for C1 amended on the spec's scenario line. -/
theorem C1_amended_bare_generic_witness :
    List.filter (fun e => e.location.line = 1)
      [(⟨str "foo bar", ⟨str "f", 1⟩, EntryData.Generic⟩ : Entry)] =
      [⟨str "foo bar", ⟨str "f", 1⟩, .Generic⟩] := by
  have h := @C1_amended_bare_generic (str "// TODO: foo bar */") (str "f")
    [⟨str "foo bar", ⟨str "f", 1⟩, .Generic⟩] [] [] (str "// TODO: foo bar */")
    [str "//"] (str "TODO:") [str "foo", str "bar", str "*/"] (str "foo bar")
    (by decide) (by decide) (by decide) (by decide) (by decide) (by decide) (by decide)
    (by decide) (by decide)
  simpa using h

theorem entryPriority_eq_some {e : Entry} {p : Int} :
    entryPriority e = some p ↔ e.data = EntryData.Priority p := by
  cases e with
  | mk t loc d => cases d <;> simp [entryPriority]

theorem entryCategory_eq_some {e : Entry} {c : Str} :
    entryCategory e = some c ↔ e.data = EntryData.Category c := by
  cases e with
  | mk t loc d => cases d <;> simp [entryCategory]

theorem strLe_nil_left (t : Str) : strLe [] t = true := by
  cases t <;> simp [strLe, strLt]

theorem render_prioritySections (entries : List Entry) :
    (render_entries entries).prioritySections =
      (sortBy intLe (entries.filterMap entryPriority).dedup).map
        (fun p => (p, priorityHeader p,
          entries.filter (fun e => e.data = EntryData.Priority p))) := rfl

theorem render_categorySections (entries : List Entry) :
    (render_entries entries).categorySections =
      (sortBy strLe (entries.filterMap entryCategory).dedup).map
        (fun c => (c, entries.filter (fun e => e.data = EntryData.Category c))) := rfl

theorem render_otherSection (entries : List Entry) :
    (render_entries entries).otherSection =
      sortBy (fun a b => strLe a.text b.text)
        (entries.filter (fun e => e.data = EntryData.Generic)) := rfl

/-- C5: the report ordering is canonical: priority sections are strictly
ascending in the priority value, each headed by the todo0...0 / todoN
notation of the source and holding exactly the entries of that priority
in discovery order (a sublist of the input); category sections are
strictly ascending lexicographically; the Other section is a permutation
of the Generic entries sorted ascending by text, the empty text least. -/
theorem C5_render_ordering (entries : List Entry) :
    ((render_entries entries).prioritySections.map (fun x => x.1)).Pairwise (fun a b => a < b) ∧
    (∀ p hdr b, (p, hdr, b) ∈ (render_entries entries).prioritySections →
      hdr = priorityHeader p ∧
      b = entries.filter (fun e => e.data = EntryData.Priority p) ∧
      List.Sublist b entries) ∧
    (∀ p : Int, (∃ x ∈ (render_entries entries).prioritySections, x.1 = p) ↔
      ∃ e ∈ entries, e.data = EntryData.Priority p) ∧
    priorityHeader (-1) = str "todo00" ∧ priorityHeader (-2) = str "todo000" ∧
    priorityHeader 0 = str "todo0" ∧ priorityHeader 3 = str "todo3" ∧
    (∀ n : Int, n < 0 → priorityHeader n = str "todo0" ++ List.replicate n.natAbs '0') ∧
    (∀ n : Int, 0 < n → priorityHeader n = str "todo" ++ natDigits n.natAbs) ∧
    ((render_entries entries).categorySections.map (fun x => x.1)).Pairwise
      (fun a b => strLt a b = true) ∧
    (∀ c b, (c, b) ∈ (render_entries entries).categorySections →
      b = entries.filter (fun e => e.data = EntryData.Category c) ∧
      List.Sublist b entries) ∧
    (∀ c : Str, (∃ x ∈ (render_entries entries).categorySections, x.1 = c) ↔
      ∃ e ∈ entries, e.data = EntryData.Category c) ∧
    ((render_entries entries).otherSection).Perm
      (entries.filter (fun e => e.data = EntryData.Generic)) ∧
    ((render_entries entries).otherSection).Pairwise
      (fun a b => strLe a.text b.text = true) ∧
    (∀ t : Str, strLe [] t = true) := by
  have hpnodup : (sortBy intLe (entries.filterMap entryPriority).dedup).Nodup :=
    (sortBy_perm intLe _).symm.nodup (List.nodup_dedup _)
  have hpsorted := sortBy_pairwise intLe_total intLe_trans
    (entries.filterMap entryPriority).dedup
  have hcnodup : (sortBy strLe (entries.filterMap entryCategory).dedup).Nodup :=
    (sortBy_perm strLe _).symm.nodup (List.nodup_dedup _)
  have hcsorted := sortBy_pairwise strLe_total strLe_trans
    (entries.filterMap entryCategory).dedup
  refine ⟨?_, ?_, ?_, by decide, by decide, by decide, by decide, ?_, ?_, ?_, ?_, ?_, ?_, ?_, ?_⟩
  · -- priority keys strictly ascending
    rw [render_prioritySections, List.map_map, List.pairwise_map]
    refine List.Pairwise.imp ?_ (hpsorted.and hpnodup)
    intro a b hab
    rcases hab with ⟨h1, h2⟩
    simp only [intLe, decide_eq_true_eq] at h1
    show a < b
    omega
  · -- priority section contents
    intro p hdr b hmem
    rw [render_prioritySections] at hmem
    rcases List.mem_map.mp hmem with ⟨q, hq, hfq⟩
    simp only [Prod.mk.injEq] at hfq
    rcases hfq with ⟨h1, h2, h3⟩
    subst h1
    exact ⟨h2.symm, h3.symm, h3 ▸ List.filter_sublist entries⟩
  · -- which priorities are present
    intro p
    rw [render_prioritySections]
    constructor
    · rintro ⟨x, hx, hx1⟩
      rcases List.mem_map.mp hx with ⟨q, hq, hfq⟩
      have hq2 : q ∈ (entries.filterMap entryPriority).dedup :=
        (sortBy_perm intLe _).mem_iff.mp hq
      rw [List.mem_dedup, List.mem_filterMap] at hq2
      rcases hq2 with ⟨e, he, hpe⟩
      refine ⟨e, he, ?_⟩
      rw [entryPriority_eq_some] at hpe
      rw [hpe]
      have hxq : x.1 = q := by rw [← hfq]
      rw [← hx1, hxq]
    · rintro ⟨e, he, hde⟩
      refine ⟨(p, priorityHeader p, entries.filter (fun e => e.data = EntryData.Priority p)),
        ?_, rfl⟩
      apply List.mem_map.mpr
      refine ⟨p, ?_, rfl⟩
      apply (sortBy_perm intLe _).mem_iff.mpr
      rw [List.mem_dedup, List.mem_filterMap]
      exact ⟨e, he, entryPriority_eq_some.mpr hde⟩
  · -- negative headers
    intro n hn
    unfold priorityHeader
    rw [if_pos hn]
  · -- positive headers
    intro n hn
    unfold priorityHeader
    rw [if_neg (by omega), if_neg (by omega)]
  · -- category keys strictly ascending
    rw [render_categorySections, List.map_map, List.pairwise_map]
    refine List.Pairwise.imp ?_ (hcsorted.and hcnodup)
    intro a b hab
    rcases hab with ⟨h1, h2⟩
    simp only [strLe, Bool.or_eq_true, decide_eq_true_eq] at h1
    show strLt a b = true
    rcases h1 with h1 | h1
    · exact h1
    · exact absurd h1 h2
  · -- category section contents
    intro c b hmem
    rw [render_categorySections] at hmem
    rcases List.mem_map.mp hmem with ⟨q, hq, hfq⟩
    simp only [Prod.mk.injEq] at hfq
    rcases hfq with ⟨h1, h2⟩
    subst h1
    exact ⟨h2.symm, h2 ▸ List.filter_sublist entries⟩
  · -- which categories are present
    intro c
    rw [render_categorySections]
    constructor
    · rintro ⟨x, hx, hx1⟩
      rcases List.mem_map.mp hx with ⟨q, hq, hfq⟩
      have hq2 : q ∈ (entries.filterMap entryCategory).dedup :=
        (sortBy_perm strLe _).mem_iff.mp hq
      rw [List.mem_dedup, List.mem_filterMap] at hq2
      rcases hq2 with ⟨e, he, hce⟩
      refine ⟨e, he, ?_⟩
      rw [entryCategory_eq_some] at hce
      rw [hce]
      have hxq : x.1 = q := by rw [← hfq]
      rw [← hx1, hxq]
    · rintro ⟨e, he, hde⟩
      refine ⟨(c, entries.filter (fun e => e.data = EntryData.Category c)), ?_, rfl⟩
      apply List.mem_map.mpr
      refine ⟨c, ?_, rfl⟩
      apply (sortBy_perm strLe _).mem_iff.mpr
      rw [List.mem_dedup, List.mem_filterMap]
      exact ⟨e, he, entryCategory_eq_some.mpr hde⟩
  · -- Other is a permutation of the Generic entries
    rw [render_otherSection]
    exact sortBy_perm _ _
  · -- Other is sorted by text
    rw [render_otherSection]
    exact sortBy_pairwise (fun (a b : Entry) => strLe_total a.text b.text)
      (fun (a b c : Entry) => strLe_trans a.text b.text c.text) _
  · exact strLe_nil_left

/-- Witness for C5: the negative-header rule applied at -3. -/
theorem C5_render_ordering_witness :
    priorityHeader (-3) = str "todo0" ++ List.replicate (Int.natAbs (-3)) '0' :=
  (C5_render_ordering []).2.2.2.2.2.2.2.1 (-3) (by decide)
